import Mathlib

/-!
Verification of the bounded, composite-keyed, optionally persistent LRU store
and its batch reconciliation wrapper
(chebifier/_custom_cache.py, class PerSmilesPerModelLRUCache).

The Python OrderedDict is embedded as an association list ordered from
least-recently-touched (front) to most-recently-touched (back); Python None
results are embedded as Option.none, machine-level pickling and the file
system as an explicit DiskState value, and the assertion failures of the
Python code as Option.none results of the corresponding operations.
-/

set_option autoImplicit false

/-- In-memory state of the cache object: the ordered mapping (front = least
recently touched), the configured capacity (a Python int, possibly
non-positive), whether a persist path is configured, and the hit/miss
counters. -/
structure PerSmilesPerModelLRUCache (V : Type) where
  cache : List ((String × String) × V)
  max_size : Int
  persist : Bool
  hits : Nat
  misses : Nat
  deriving DecidableEq

namespace PerSmilesPerModelLRUCache

variable {V : Type}

/-- Lookup of a key in the ordered mapping (dict lookup semantics: the unique
entry with that key; on the lists built by the operations keys are unique). -/
def lookupKey (key : String × String) : List ((String × String) × V) → Option V
  | [] => none
  | kv :: rest => if kv.1 = key then some kv.2 else lookupKey key rest

/-- Python membership test: key in self.cache. -/
def containsKey (key : String × String) (l : List ((String × String) × V)) : Bool :=
  (lookupKey key l).isSome

/-- Removal of a key from the ordered mapping. -/
def eraseKey (key : String × String) : List ((String × String) × V) → List ((String × String) × V)
  | [] => []
  | kv :: rest => if kv.1 = key then eraseKey key rest else kv :: eraseKey key rest

/-- OrderedDict.move_to_end: move the entry for the key (kept with its value)
to the most-recently-touched end. Identity when the key is missing (the code
only calls it on present keys). -/
def moveToEnd (key : String × String) (l : List ((String × String) × V)) :
    List ((String × String) × V) :=
  match lookupKey key l with
  | some v => eraseKey key l ++ [(key, v)]
  | none => l

/-- OrderedDict item assignment: update in place when the key is present,
append at the most-recently-touched end when it is new. -/
def dictAssign (key : String × String) (v : V) :
    List ((String × String) × V) → List ((String × String) × V)
  | [] => [(key, v)]
  | kv :: rest => if kv.1 = key then (key, v) :: rest else kv :: dictAssign key v rest

/-- The eviction step of set: popitem(last=False) when the length exceeds
max_size, i.e. drop the least-recently-touched (front) entry. -/
def popFrontIfOver (max_size : Int) (l : List ((String × String) × V)) :
    List ((String × String) × V) :=
  if (l.length : Int) > max_size then l.drop 1 else l

/-- get(smiles, model_name): on a hit, move the entry to the
most-recently-touched end, bump the hit counter and return the value; on a
miss bump the miss counter and return None. Returns the value together with
the mutated store. -/
def get (c : PerSmilesPerModelLRUCache V) (smiles model_name : String) :
    Option V × PerSmilesPerModelLRUCache V :=
  let key := (smiles, model_name)
  match lookupKey key c.cache with
  | some v => (some v, { c with cache := moveToEnd key c.cache, hits := c.hits + 1 })
  | none => (none, { c with misses := c.misses + 1 })

/-- Body of set(smiles, model_name, value) after the non-None assertion:
move_to_end when the key is present, assign, then evict the front entry when
over capacity. -/
def setImpl (c : PerSmilesPerModelLRUCache V) (smiles model_name : String) (v : V) :
    PerSmilesPerModelLRUCache V :=
  let key := (smiles, model_name)
  let c1 := if containsKey key c.cache then moveToEnd key c.cache else c.cache
  let c2 := dictAssign key v c1
  { c with cache := popFrontIfOver c.max_size c2 }

/-- set(smiles, model_name, value): the assertion `value is not None` is
embedded as returning none (assertion failure) on an absent value. -/
def set (c : PerSmilesPerModelLRUCache V) (smiles model_name : String) (value : Option V) :
    Option (PerSmilesPerModelLRUCache V) :=
  match value with
  | none => none
  | some v => some (setImpl c smiles model_name v)

/-- In-memory effect of clear(): empty the mapping and reset both counters
(the durable-snapshot removal is a disk effect, modelled separately). -/
def clear (c : PerSmilesPerModelLRUCache V) : PerSmilesPerModelLRUCache V :=
  { c with cache := [], hits := 0, misses := 0 }

/-- size(): number of entries (Python len). -/
def size (c : PerSmilesPerModelLRUCache V) : Nat :=
  c.cache.length

/-- What pickle.load would produce from the persisted file: an OrderedDict
mapping, a deserializable object of some other type, or content that raises
on deserialization. -/
inductive PickleData (V : Type) where
  | odict (m : List ((String × String) × V))
  | nonOdict
  | corrupt
  deriving DecidableEq

/-- State of the durable location: no file, an empty file, or a file with
content. -/
inductive DiskState (V : Type) where
  | absent
  | emptyFile
  | data (d : PickleData V)
  deriving DecidableEq

/-- Outcome of the I/O attempted by _save_cache: success, or an environment
failure that leaves the medium in an arbitrary state (partial write, missing
file, and so on). -/
inductive SaveOutcome (V : Type) where
  | ok
  | ioError (leftover : DiskState V)
  deriving DecidableEq

/-- _save_cache: when persistence is configured, try to pickle the mapping to
disk; an I/O failure is caught and only printed, leaving the in-memory state
untouched and the medium in whatever state the failure left it. -/
def save_cache (c : PerSmilesPerModelLRUCache V) (d : DiskState V) (o : SaveOutcome V) :
    PerSmilesPerModelLRUCache V × DiskState V :=
  if c.persist then
    match o with
    | SaveOutcome.ok => (c, DiskState.data (PickleData.odict c.cache))
    | SaveOutcome.ioError leftover => (c, leftover)
  else (c, d)

/-- _load_cache: when persistence is configured and the file exists and is
non-empty, unpickle it; replace the in-memory mapping only when the result is
an OrderedDict; deserialization failures are caught and only printed. -/
def load_cache (c : PerSmilesPerModelLRUCache V) (d : DiskState V) :
    PerSmilesPerModelLRUCache V :=
  if c.persist then
    match d with
    | DiskState.data (PickleData.odict m) => { c with cache := m }
    | _ => c
  else c

/-- save(): delegates to _save_cache. -/
def save (c : PerSmilesPerModelLRUCache V) (d : DiskState V) (o : SaveOutcome V) :
    PerSmilesPerModelLRUCache V × DiskState V :=
  save_cache c d o

/-- load(): delegates to _load_cache. -/
def load (c : PerSmilesPerModelLRUCache V) (d : DiskState V) : PerSmilesPerModelLRUCache V :=
  load_cache c d

/-- Constructor: empty mapping, the given capacity and persistence flag, zero
counters; when a persist path is configured the constructor loads from it
(d is the durable location's current content). -/
def init (max_size : Int) (persist : Bool) (d : DiskState V) : PerSmilesPerModelLRUCache V :=
  let c : PerSmilesPerModelLRUCache V := ⟨[], max_size, persist, 0, 0⟩
  if persist then load_cache c d else c

/-- Result of one invocation of the batch wrapper: the mutated store, the
positional output list (None for results the wrapped function left absent),
the log of invocations of the wrapped function (each with its argument list),
and the log of writes performed on the store, in order. -/
structure BatchResult (V : Type) where
  cache : PerSmilesPerModelLRUCache V
  output : List (Option V)
  calls : List (List String)
  writes : List ((String × String) × V)
  deriving DecidableEq

/-- First loop of the wrapper: for each subject at its index (enumerate), get
from the store; on a hit place the value at that position, on a miss record
the subject and index in the to-compute list and leave the position None.
Returns the store after the gets, the positional list and the to-compute
list. -/
def fetchPhase (model_name : String) :
    PerSmilesPerModelLRUCache V → List String → Nat →
      PerSmilesPerModelLRUCache V × List (Option V) × List (String × Nat)
  | c, [], _ => (c, [], [])
  | c, s :: rest, idx =>
    let r := get c s model_name
    let t := fetchPhase model_name r.2 rest (idx + 1)
    match r.1 with
    | some v => (t.1, some v :: t.2.1, t.2.2)
    | none => (t.1, none :: t.2.1, (s, idx) :: t.2.2)

/-- Second loop of the wrapper: zip of the to-compute subjects, the new
results and the recorded indices (truncating at the shorter of the result
list and the to-compute list, like Python zip); write each non-None result
into the store and place every result, None included, at its recorded
position. -/
def writePhase (model_name : String) :
    PerSmilesPerModelLRUCache V → List (String × Nat) → List (Option V) → List (Option V) →
      PerSmilesPerModelLRUCache V × List (Option V) × List ((String × String) × V)
  | c, [], _, outs => (c, outs, [])
  | c, _ :: _, [], outs => (c, outs, [])
  | c, (s, idx) :: miss, p :: preds, outs =>
    match p with
    | some v =>
      let t := writePhase model_name (setImpl c s model_name v) miss preds (outs.set idx p)
      (t.1, t.2.1, ((s, model_name), v) :: t.2.2)
    | none => writePhase model_name c miss preds (outs.set idx p)

/-- Happy path of the wrapper body (after its assertions): fetch every
subject from the store, and when the to-compute list is non-empty invoke the
wrapped function exactly once with it and run the write loop. -/
def wrapperRun (c : PerSmilesPerModelLRUCache V) (model_name : String)
    (func : List String → List (Option V)) (smiles_list : List String) : BatchResult V :=
  let t := fetchPhase model_name c smiles_list 0
  let missing := t.2.2.map Prod.fst
  if missing.isEmpty then
    ⟨t.1, t.2.1, [], []⟩
  else
    let rs := func missing
    let w := writePhase model_name t.1 t.2.2 rs t.2.1
    ⟨w.1, w.2.1, [missing], w.2.2⟩

/-- The decorated wrapper with its assertions: is_list embeds
isinstance(smiles_list, list); model_attr embeds
getattr(instance, "model_name", None); the wrapped function returning none
embeds a non-Iterable return value. Each failed assertion is an assertion
error, embedded as none. Note the code checks only that the return value is
an Iterable, never its length. -/
def batch_decorator (c : PerSmilesPerModelLRUCache V) (is_list : Bool)
    (model_attr : Option String) (func : List String → Option (List (Option V)))
    (smiles_list : List String) : Option (BatchResult V) :=
  if is_list then
    match model_attr with
    | some model_name =>
      let t := fetchPhase model_name c smiles_list 0
      let missing := t.2.2.map Prod.fst
      if missing.isEmpty then some (wrapperRun c model_name (fun _ => []) smiles_list)
      else
        match func missing with
        | none => none
        | some rs => some (wrapperRun c model_name (fun _ => rs) smiles_list)
    | none => none
  else none

/-- The lookup function of a store for a fixed source: what get would return,
as a function of the subject (spec-side view used to state the wrapper
claims). -/
def lookFun (c : PerSmilesPerModelLRUCache V) (model_name : String) : String → Option V :=
  fun s => lookupKey (s, model_name) c.cache

/-- Modelled from the spec (section 4.2, step 3): the to-compute subjects are
the inputs whose lookup misses, in input order. -/
def missSpec (look : String → Option V) (xs : List String) : List String :=
  xs.filter (fun s => (look s).isNone)

/-- Modelled from the spec (section 4.2, output contract): each output
position holds the cached result on a hit and otherwise consumes the next
newly computed result, in order. -/
def mergeSpec (look : String → Option V) : List String → List (Option V) → List (Option V)
  | [], _ => []
  | s :: rest, rs =>
    match look s with
    | some v => some v :: mergeSpec look rest rs
    | none =>
      match rs with
      | [] => none :: mergeSpec look rest []
      | r :: rs2 => r :: mergeSpec look rest rs2

/-- Python enumerate, starting at a given index. -/
def enumFrom (idx : Nat) : List String → List (String × Nat)
  | [] => []
  | s :: rest => (s, idx) :: enumFrom (idx + 1) rest

/-- One public operation on a store, with the disk content each persistence
operation observes carried as a payload. -/
inductive Op (V : Type) where
  | set (smiles model_name : String) (v : V)
  | get (smiles model_name : String)
  | clear
  | save (d : DiskState V) (o : SaveOutcome V)
  | load (d : DiskState V)
  deriving DecidableEq

/-- In-memory effect of one operation. -/
def applyOp (c : PerSmilesPerModelLRUCache V) : Op V → PerSmilesPerModelLRUCache V
  | Op.set s m v => setImpl c s m v
  | Op.get s m => (c.get s m).2
  | Op.clear => c.clear
  | Op.save d o => (c.save d o).1
  | Op.load d => c.load d

/-- Run a sequence of operations. -/
def runOps (c : PerSmilesPerModelLRUCache V) (ops : List (Op V)) : PerSmilesPerModelLRUCache V :=
  ops.foldl applyOp c

/-- An operation is a load whose observed snapshot, when it is an OrderedDict,
has at most max_size entries (trivially true for every other operation). -/
def loadWithin (max_size : Int) : Op V → Bool
  | Op.load (DiskState.data (PickleData.odict l)) => decide ((l.length : Int) ≤ max_size)
  | _ => true

/-- An operation is a set or a get. -/
def isSetOrGet : Op V → Bool
  | Op.set _ _ _ => true
  | Op.get _ _ => true
  | _ => false

/-- Lookup distributes over append: the left list is consulted first. -/
theorem lookupKey_append (key : String × String) (l1 l2 : List ((String × String) × V)) :
    lookupKey key (l1 ++ l2) =
      (match lookupKey key l1 with
       | some v => some v
       | none => lookupKey key l2) := by
  induction l1 with
  | nil => rfl
  | cons kv rest ih =>
    by_cases h : kv.1 = key
    · simp [lookupKey, h]
    · simp [lookupKey, h, ih]

/-- After erasing a key it is no longer found. -/
theorem lookupKey_eraseKey_self (key : String × String) (l : List ((String × String) × V)) :
    lookupKey key (eraseKey key l) = none := by
  induction l with
  | nil => rfl
  | cons kv rest ih =>
    by_cases h : kv.1 = key
    · simp [eraseKey, h, ih]
    · simp [eraseKey, lookupKey, h, ih]

/-- Erasing one key does not change the lookup of another. -/
theorem lookupKey_eraseKey_ne {k key : String × String} (h : k ≠ key)
    (l : List ((String × String) × V)) :
    lookupKey k (eraseKey key l) = lookupKey k l := by
  induction l with
  | nil => rfl
  | cons kv rest ih =>
    simp only [eraseKey, lookupKey]
    by_cases h2 : kv.1 = key
    · rw [if_pos h2, ih]
      have h3 : ¬ kv.1 = k := by
        rw [h2]
        exact fun hx => h hx.symm
      simp only [lookupKey, if_neg h3]
    · rw [if_neg h2]
      simp only [lookupKey]
      by_cases h3 : kv.1 = k
      · rw [if_pos h3, if_pos h3]
      · rw [if_neg h3, if_neg h3, ih]

/-- Erasing a key that is not present is the identity. -/
theorem eraseKey_notin {key : String × String} {l : List ((String × String) × V)}
    (h : lookupKey key l = none) : eraseKey key l = l := by
  induction l with
  | nil => rfl
  | cons kv rest ih =>
    by_cases h2 : kv.1 = key
    · simp [lookupKey, h2] at h
    · simp [lookupKey, h2] at h
      simp [eraseKey, h2, ih h]

/-- move_to_end changes no lookup. -/
theorem lookupKey_moveToEnd (k key : String × String) (l : List ((String × String) × V)) :
    lookupKey k (moveToEnd key l) = lookupKey k l := by
  unfold moveToEnd
  cases hl : lookupKey key l with
  | none => rfl
  | some v =>
    by_cases hk : k = key
    · subst hk
      rw [lookupKey_append]
      simp [lookupKey_eraseKey_self, lookupKey, hl]
    · rw [lookupKey_append]
      rw [lookupKey_eraseKey_ne hk]
      cases h2 : lookupKey k l with
      | some w => rfl
      | none =>
        have h3 : ¬ key = k := fun hx => hk hx.symm
        simp [lookupKey, h3]

/-- Erasing never lengthens the list. -/
theorem eraseKey_length_le (key : String × String) (l : List ((String × String) × V)) :
    (eraseKey key l).length ≤ l.length := by
  induction l with
  | nil => exact Nat.le_refl _
  | cons kv rest ih =>
    by_cases h : kv.1 = key
    · simp only [eraseKey, h, if_pos]
      exact Nat.le_succ_of_le ih
    · simp only [eraseKey, h, if_neg, not_false_iff, List.length_cons]
      exact Nat.succ_le_succ ih

/-- Erasing a present key strictly shortens the list. -/
theorem eraseKey_length_lt {key : String × String} {l : List ((String × String) × V)}
    (h : (lookupKey key l).isSome) : (eraseKey key l).length < l.length := by
  induction l with
  | nil => simp [lookupKey] at h
  | cons kv rest ih =>
    by_cases h2 : kv.1 = key
    · simp only [eraseKey, h2, if_pos, List.length_cons]
      exact Nat.lt_succ_of_le (eraseKey_length_le key rest)
    · simp only [lookupKey, h2, if_neg, not_false_iff] at h
      simp only [eraseKey, h2, if_neg, not_false_iff, List.length_cons]
      exact Nat.succ_lt_succ (ih h)

/-- move_to_end never lengthens the list. -/
theorem moveToEnd_length_le (key : String × String) (l : List ((String × String) × V)) :
    (moveToEnd key l).length ≤ l.length := by
  unfold moveToEnd
  cases hl : lookupKey key l with
  | none => exact Nat.le_refl _
  | some v =>
    have hs : (lookupKey key l).isSome := by rw [hl]; rfl
    simp only [List.length_append, List.length_cons, List.length_nil]
    have := eraseKey_length_lt hs
    omega

/-- Assignment grows the list by at most one entry. -/
theorem dictAssign_length_le (key : String × String) (v : V)
    (l : List ((String × String) × V)) :
    (dictAssign key v l).length ≤ l.length + 1 := by
  induction l with
  | nil => exact Nat.le_refl _
  | cons kv rest ih =>
    by_cases h : kv.1 = key
    · simp [dictAssign, h]
    · simp only [dictAssign, h, if_neg, not_false_iff, List.length_cons]
      exact Nat.succ_le_succ ih

/-- Assigning a key absent from the left part of an append overwrites the
final entry holding it. -/
theorem dictAssign_notin_append {key : String × String} {l : List ((String × String) × V)}
    (h : lookupKey key l = none) (v v0 : V) :
    dictAssign key v (l ++ [(key, v0)]) = l ++ [(key, v)] := by
  induction l with
  | nil => simp [dictAssign]
  | cons kv rest ih =>
    by_cases h2 : kv.1 = key
    · simp [lookupKey, h2] at h
    · simp [lookupKey, h2] at h
      simp [dictAssign, h2, ih h]

/-- Assigning an absent key appends it. -/
theorem dictAssign_notin {key : String × String} {l : List ((String × String) × V)}
    (h : lookupKey key l = none) (v : V) :
    dictAssign key v l = l ++ [(key, v)] := by
  induction l with
  | nil => simp [dictAssign]
  | cons kv rest ih =>
    by_cases h2 : kv.1 = key
    · simp [lookupKey, h2] at h
    · simp [lookupKey, h2] at h
      simp [dictAssign, h2, ih h]

/-- The mapping after a set: the key is erased and re-appended at the
most-recently-touched end, then the front entry is dropped when over
capacity. -/
theorem setImpl_cache (c : PerSmilesPerModelLRUCache V) (s m : String) (v : V) :
    (setImpl c s m v).cache
      = popFrontIfOver c.max_size (eraseKey (s, m) c.cache ++ [((s, m), v)]) := by
  unfold setImpl
  cases hl : lookupKey (s, m) c.cache with
  | none =>
    have hc : containsKey (s, m) c.cache = false := by
      simp [containsKey, hl]
    simp [hc, dictAssign_notin hl, eraseKey_notin hl]
  | some v0 =>
    have hc : containsKey (s, m) c.cache = true := by
      simp [containsKey, hl]
    have herase : lookupKey (s, m) (eraseKey (s, m) c.cache) = none :=
      lookupKey_eraseKey_self _ _
    simp [hc, moveToEnd, hl, dictAssign_notin_append herase]

/-- The value component of a get is the lookup of the key. -/
theorem get_fst (c : PerSmilesPerModelLRUCache V) (s m : String) :
    (c.get s m).1 = lookupKey (s, m) c.cache := by
  cases h : lookupKey (s, m) c.cache <;> simp [get, h]

/-- A get changes no lookup of the store. -/
theorem lookupKey_get_snd (c : PerSmilesPerModelLRUCache V) (s m : String)
    (k : String × String) :
    lookupKey k ((c.get s m).2).cache = lookupKey k c.cache := by
  cases h : lookupKey (s, m) c.cache <;>
    simp [get, h, lookupKey_moveToEnd]

/-- A get never lengthens the mapping. -/
theorem get_snd_length_le (c : PerSmilesPerModelLRUCache V) (s m : String) :
    ((c.get s m).2).cache.length ≤ c.cache.length := by
  cases h : lookupKey (s, m) c.cache <;>
    simp [get, h, moveToEnd_length_le]

/-- Enumerating from a higher start index shifts every recorded index. -/
theorem enumFrom_shift (xs : List String) :
    ∀ i : Nat, enumFrom (i + 1) xs = (enumFrom i xs).map (fun p => (p.1, p.2 + 1)) := by
  induction xs with
  | nil => intro i; rfl
  | cons s rest ih =>
    intro i
    simp only [enumFrom, List.map_cons]
    rw [ih (i + 1)]

/-- Enumeration only pairs each element with an index. -/
theorem enumFrom_filter_fst (q : String → Bool) (xs : List String) :
    ∀ i : Nat,
      ((enumFrom i xs).filter (fun p => q p.1)).map Prod.fst = xs.filter q := by
  induction xs with
  | nil => intro i; rfl
  | cons s rest ih =>
    intro i
    simp only [enumFrom, List.filter_cons]
    cases hq : q s with
    | true => simp [hq, ih]
    | false => simp [hq, ih]

/-- With no computed results left, the merged output is exactly the lookups. -/
theorem mergeSpec_nil_rs (look : String → Option V) (xs : List String) :
    mergeSpec look xs [] = xs.map look := by
  induction xs with
  | nil => rfl
  | cons s rest ih =>
    cases hs : look s <;> simp [mergeSpec, hs, ih]

/-- The merged output has one entry per input subject. -/
theorem mergeSpec_length (look : String → Option V) (xs : List String) :
    ∀ rs : List (Option V), (mergeSpec look xs rs).length = xs.length := by
  induction xs with
  | nil => intro rs; rfl
  | cons s rest ih =>
    intro rs
    cases hs : look s with
    | some v => simp [mergeSpec, hs, ih]
    | none =>
      cases rs with
      | nil => simp [mergeSpec, hs, ih]
      | cons r rs2 => simp [mergeSpec, hs, ih]

/-- When every subject hits, the merged output is the lookups whatever the
computed results are. -/
theorem mergeSpec_all_hit {look : String → Option V} {xs : List String}
    (h : ∀ x ∈ xs, (look x).isNone = false) (rs : List (Option V)) :
    mergeSpec look xs rs = xs.map look := by
  induction xs generalizing rs with
  | nil => rfl
  | cons s rest ih =>
    cases hs : look s with
    | some v =>
      simp only [mergeSpec, hs, List.map_cons]
      rw [ih (fun x hx => h x (List.mem_cons_of_mem _ hx)) rs]
    | none =>
      have := h s (List.mem_cons_self _ _)
      rw [hs] at this
      simp at this

/-- The first wrapper loop: the positional list holds the lookups, the
to-compute list is the enumerated misses, and the lookups of the resulting
store are unchanged. -/
theorem fetchPhase_spec (m : String) (xs : List String) :
    ∀ (c : PerSmilesPerModelLRUCache V) (idx : Nat),
      (fetchPhase m c xs idx).2.1 = xs.map (lookFun c m)
      ∧ (fetchPhase m c xs idx).2.2
          = (enumFrom idx xs).filter (fun p => ((lookFun c m) p.1).isNone)
      ∧ ∀ k, lookupKey k ((fetchPhase m c xs idx).1).cache = lookupKey k c.cache := by
  induction xs with
  | nil =>
    intro c idx
    exact ⟨rfl, rfl, fun k => rfl⟩
  | cons s rest ih =>
    intro c idx
    have hfun : lookFun ((c.get s m).2) m = lookFun c m :=
      funext (fun s2 => lookupKey_get_snd c s m (s2, m))
    obtain ⟨h1, h2, h3⟩ := ih ((c.get s m).2) (idx + 1)
    rw [hfun] at h1 h2
    cases hv : lookupKey (s, m) c.cache with
    | some v =>
      have hget : (c.get s m).1 = some v := by rw [get_fst, hv]
      have hlf : lookFun c m s = some v := hv
      refine ⟨?_, ?_, ?_⟩
      · simp only [fetchPhase, hget, List.map_cons, hlf]
        rw [h1]
      · simp only [fetchPhase, hget, enumFrom, List.filter_cons, hlf]
        simp only [Option.isNone_some, Bool.false_eq_true, if_false, cond_false]
        rw [h2]
      · intro k
        simp only [fetchPhase, hget]
        rw [h3 k, lookupKey_get_snd]
    | none =>
      have hget : (c.get s m).1 = none := by rw [get_fst, hv]
      have hlf : lookFun c m s = none := hv
      refine ⟨?_, ?_, ?_⟩
      · simp only [fetchPhase, hget, List.map_cons, hlf]
        rw [h1]
      · simp only [fetchPhase, hget, enumFrom, List.filter_cons, hlf]
        simp only [Option.isNone_none, cond_true]
        rw [h2]
        simp
      · intro k
        simp only [fetchPhase, hget]
        rw [h3 k, lookupKey_get_snd]

/-- The second wrapper loop ignores a leading already-filled position when
every recorded index is shifted past it. -/
theorem writePhase_shift (m : String) (miss : List (String × Nat)) :
    ∀ (c : PerSmilesPerModelLRUCache V) (rs : List (Option V)) (o : Option V)
      (outs : List (Option V)),
      writePhase m c (miss.map (fun p => (p.1, p.2 + 1))) rs (o :: outs) =
        ((writePhase m c miss rs outs).1,
         o :: (writePhase m c miss rs outs).2.1,
         (writePhase m c miss rs outs).2.2) := by
  induction miss with
  | nil => intro c rs o outs; rfl
  | cons p miss2 ih =>
    intro c rs o outs
    obtain ⟨s, j⟩ := p
    cases rs with
    | nil => rfl
    | cons r rs2 =>
      cases r with
      | some v =>
        simp only [List.map_cons, writePhase, List.set_cons_succ]
        rw [ih]
      | none =>
        simp only [List.map_cons, writePhase, List.set_cons_succ]
        rw [ih]

/-- The second wrapper loop realizes the specified merge: writing the
computed results at their recorded positions over the positional list of
lookups yields the merged output. -/
theorem writePhase_mergeSpec (m : String) (xs : List String) :
    ∀ (look : String → Option V) (rs : List (Option V)) (c : PerSmilesPerModelLRUCache V),
      (writePhase m c ((enumFrom 0 xs).filter (fun p => (look p.1).isNone)) rs
          (xs.map look)).2.1
        = mergeSpec look xs rs := by
  induction xs with
  | nil => intro look rs c; rfl
  | cons s rest ih =>
    intro look rs c
    have hshift : (enumFrom 1 rest).filter (fun p => (look p.1).isNone)
        = ((enumFrom 0 rest).filter (fun p => (look p.1).isNone)).map
            (fun p => (p.1, p.2 + 1)) := by
      rw [enumFrom_shift rest 0]
      rw [List.filter_map]
      rfl
    cases hs : look s with
    | some v =>
      simp only [enumFrom, List.filter_cons, List.map_cons, hs, Option.isNone_some,
        Bool.false_eq_true, if_false, cond_false]
      rw [hshift, writePhase_shift, ih]
      simp [mergeSpec, hs]
    | none =>
      simp only [enumFrom, List.filter_cons, List.map_cons, hs, Option.isNone_none, cond_true]
      cases rs with
      | nil =>
        simp only [writePhase, mergeSpec, hs]
        rw [mergeSpec_nil_rs]
      | cons r rs2 =>
        cases r with
        | some v =>
          simp only [writePhase, List.set_cons_zero]
          rw [hshift, writePhase_shift, ih]
          simp [mergeSpec, hs]
        | none =>
          simp only [writePhase, List.set_cons_zero]
          rw [hshift, writePhase_shift, ih]
          simp [mergeSpec, hs]

/-- The to-compute subjects of the first wrapper loop are the lookup misses,
in input order. -/
theorem fetch_missing (m : String) (c : PerSmilesPerModelLRUCache V) (xs : List String) :
    ((fetchPhase m c xs 0).2.2).map Prod.fst = missSpec (lookFun c m) xs := by
  obtain ⟨h1, h2, h3⟩ := fetchPhase_spec m xs c 0
  rw [h2]
  exact enumFrom_filter_fst (fun s => ((lookFun c m) s).isNone) xs 0

/-- _save_cache never changes the in-memory state, whatever the I/O outcome. -/
theorem save_cache_fst (c : PerSmilesPerModelLRUCache V) (d : DiskState V)
    (o : SaveOutcome V) : (save_cache c d o).1 = c := by
  unfold save_cache
  cases hp : c.persist with
  | false => rfl
  | true => cases o <;> rfl

/-- A set never changes the configured capacity. -/
theorem setImpl_max_size (c : PerSmilesPerModelLRUCache V) (s m : String) (v : V) :
    (setImpl c s m v).max_size = c.max_size := rfl

/-- A set keeps the mapping within capacity. -/
theorem setImpl_length_le (c : PerSmilesPerModelLRUCache V) (s m : String) (v : V)
    (h : (c.cache.length : Int) ≤ c.max_size) :
    (((setImpl c s m v).cache.length : Int)) ≤ c.max_size := by
  rw [setImpl_cache]
  have h1 : (eraseKey (s, m) c.cache).length ≤ c.cache.length := eraseKey_length_le _ _
  unfold popFrontIfOver
  by_cases hover :
      (((eraseKey (s, m) c.cache ++ [((s, m), v)]).length : Int)) > c.max_size
  · rw [if_pos hover]
    simp only [List.length_drop, List.length_append, List.length_cons,
      List.length_nil] at hover ⊢
    omega
  · rw [if_neg hover]
    simp only [List.length_append, List.length_cons, List.length_nil] at hover ⊢
    omega

/-- One operation preserves the capacity configuration and, when every load
stays within capacity, the capacity bound on the mapping. -/
theorem applyOp_inv {M : Int} (hM : 0 ≤ M) (c : PerSmilesPerModelLRUCache V) (op : Op V)
    (hmax : c.max_size = M) (hlen : (c.cache.length : Int) ≤ M)
    (hop : loadWithin M op = true) :
    (applyOp c op).max_size = M ∧ ((applyOp c op).cache.length : Int) ≤ M := by
  cases op with
  | set s m v =>
    refine ⟨hmax, ?_⟩
    have := setImpl_length_le c s m v (by rw [hmax]; exact hlen)
    rw [hmax] at this
    exact this
  | get s m =>
    simp only [applyOp]
    constructor
    · cases h : lookupKey (s, m) c.cache <;> simp [get, h, hmax]
    · have hle := get_snd_length_le c s m
      have : (((c.get s m).2.cache.length : Int)) ≤ (c.cache.length : Int) := by
        exact_mod_cast hle
      omega
  | clear =>
    exact ⟨hmax, by simp [applyOp, clear, hM]⟩
  | save d o =>
    have hs := save_cache_fst c d o
    simp only [applyOp, save, hs]
    exact ⟨hmax, hlen⟩
  | load d =>
    simp only [applyOp, load, load_cache]
    cases hp : c.persist with
    | false => exact ⟨hmax, hlen⟩
    | true =>
      cases d with
      | absent => exact ⟨hmax, hlen⟩
      | emptyFile => exact ⟨hmax, hlen⟩
      | data pd =>
        cases pd with
        | nonOdict => exact ⟨hmax, hlen⟩
        | corrupt => exact ⟨hmax, hlen⟩
        | odict l =>
          refine ⟨hmax, ?_⟩
          simp only [loadWithin, decide_eq_true_eq] at hop
          exact hop

/-- A run of operations preserves the capacity configuration and the
capacity bound, when every load stays within capacity. -/
theorem runOps_inv {M : Int} (hM : 0 ≤ M) (ops : List (Op V)) :
    ∀ c : PerSmilesPerModelLRUCache V, c.max_size = M → (c.cache.length : Int) ≤ M →
      (∀ op ∈ ops, loadWithin M op = true) →
      (runOps c ops).max_size = M ∧ ((runOps c ops).cache.length : Int) ≤ M := by
  induction ops with
  | nil => intro c hmax hlen _; exact ⟨hmax, hlen⟩
  | cons op ops ih =>
    intro c hmax hlen hload
    have hstep := applyOp_inv hM c op hmax hlen (hload op (List.mem_cons_self _ _))
    have : runOps c (op :: ops) = runOps (applyOp c op) ops := rfl
    rw [this]
    exact ih (applyOp c op) hstep.1 hstep.2 (fun o ho => hload o (List.mem_cons_of_mem _ ho))

/-- With a non-positive capacity, a set on an empty store first inserts the
entry and then immediately pops it, leaving the store empty. -/
theorem setImpl_nonpos_empty {c : PerSmilesPerModelLRUCache V} {s m : String} {v : V}
    (hmax : c.max_size ≤ 0) (hc : c.cache = []) :
    dictAssign (s, m) v c.cache = [((s, m), v)] ∧ (setImpl c s m v).cache = [] := by
  constructor
  · rw [hc]; rfl
  · rw [setImpl_cache, hc]
    show popFrontIfOver c.max_size (eraseKey (s, m) [] ++ [((s, m), v)]) = []
    rw [show eraseKey (s, m) ([] : List ((String × String) × V)) = [] from rfl]
    simp only [List.nil_append, popFrontIfOver, List.length_cons, List.length_nil]
    rw [if_pos (by push_cast; omega)]
    rfl

/-- Sets and gets preserve emptiness of a non-positive-capacity store, and
never change the capacity. -/
theorem runOps_nonpos_empty (ops : List (Op V)) :
    ∀ c : PerSmilesPerModelLRUCache V, c.max_size ≤ 0 → c.cache = [] →
      (∀ op ∈ ops, isSetOrGet op = true) →
      (runOps c ops).max_size = c.max_size ∧ (runOps c ops).cache = [] := by
  induction ops with
  | nil => intro c _ hc _; exact ⟨rfl, hc⟩
  | cons op ops ih =>
    intro c hmax hc hops
    have hset : isSetOrGet op = true := hops op (List.mem_cons_self _ _)
    have hstep : (applyOp c op).max_size = c.max_size ∧ (applyOp c op).cache = [] := by
      cases op with
      | set s m v =>
        exact ⟨rfl, (setImpl_nonpos_empty hmax hc).2⟩
      | get s m =>
        have hl : lookupKey (s, m) c.cache = none := by rw [hc]; rfl
        simp only [applyOp]
        constructor <;> simp [get, hl, hc, lookupKey]
      | clear => simp [isSetOrGet] at hset
      | save d o => simp [isSetOrGet] at hset
      | load d => simp [isSetOrGet] at hset
    have : runOps c (op :: ops) = runOps (applyOp c op) ops := rfl
    rw [this]
    have hrest := ih (applyOp c op) (by rw [hstep.1]; exact hmax) hstep.2
      (fun o ho => hops o (List.mem_cons_of_mem _ ho))
    exact ⟨by rw [hrest.1, hstep.1], hrest.2⟩

/-- Claim C2: eviction is strict LRU with recency updated on both read-hit
and write. With capacity 3, after sets of keys A, B, C then D, the entry A is
evicted: get A returns absent while get D returns its value. Whereas after
sets A, B, C, a successful get of A, then set D, the evicted entry is B (the
new least-recently-touched), not A. -/
theorem claim_c2_lru_eviction_and_recency :
    let e : PerSmilesPerModelLRUCache Nat := init 3 false DiskState.absent
    let c4 := setImpl (setImpl (setImpl (setImpl e "A" "mod" 1) "B" "mod" 2) "C" "mod" 3)
      "D" "mod" 4
    let d3 := setImpl (setImpl (setImpl e "A" "mod" 1) "B" "mod" 2) "C" "mod" 3
    let d5 := setImpl ((d3.get "A" "mod").2) "D" "mod" 4
    ((c4.get "A" "mod").1 = none ∧ (c4.get "D" "mod").1 = some 4)
      ∧ ((d3.get "A" "mod").1 = some 1
          ∧ (d5.get "B" "mod").1 = none
          ∧ (d5.get "A" "mod").1 = some 1
          ∧ (d5.get "D" "mod").1 = some 4) := by
  decide

/-- Claim C1 counterexample: loading a durable snapshot does not trim to
capacity. A store of capacity 5 records four entries and saves; a fresh store
of capacity 3 (which satisfies max_size ≥ 1) loads the snapshot and then
holds 4 entries, so size() ≤ max_size fails right after the load. -/
theorem claim_c1_counterexample :
    let cA := setImpl (setImpl (setImpl (setImpl
      (init 5 true DiskState.absent : PerSmilesPerModelLRUCache Nat)
      "a" "mod" 1) "b" "mod" 2) "c" "mod" 3) "d" "mod" 4
    let d1 := (cA.save DiskState.absent SaveOutcome.ok).2
    let cB := (init 3 true d1 : PerSmilesPerModelLRUCache Nat).load d1
    1 ≤ cB.max_size ∧ (size cB : Int) > cB.max_size := by
  decide

/-- Claim C1 (amended): for a store of capacity max_size ≥ 1, starting empty,
size() ≤ max_size holds after every set, get, clear and save, and after every
load whose observed snapshot holds at most max_size entries; a load does not
trim to capacity, so the restriction on loads is necessary. -/
theorem claim_c1_capacity_invariant {V : Type} (maxSize : Int) (p : Bool)
    (ops : List (Op V)) (hmax : 1 ≤ maxSize)
    (hload : ∀ op ∈ ops, loadWithin maxSize op = true) :
    (size (runOps (init maxSize p DiskState.absent) ops) : Int) ≤ maxSize := by
  have hinit : (init maxSize p (DiskState.absent : DiskState V))
      = ⟨[], maxSize, p, 0, 0⟩ := by
    unfold init load_cache
    cases p <;> rfl
  have h0 : (0 : Int) ≤ maxSize := by omega
  have h := runOps_inv (M := maxSize) h0 ops (init maxSize p DiskState.absent)
    (by rw [hinit]) (by rw [hinit]; simpa using h0) hload
  exact h.2

/-- Witness for the amended claim C1 at a concrete operation sequence of
sets, a get, a within-capacity load, a save and a clear, on capacity 2. -/
theorem claim_c1_capacity_invariant_witness :
    ((1 : Int) ≤ 2)
    ∧ (([Op.set "a" "mod" 1, Op.get "a" "mod", Op.set "b" "mod" 2,
        Op.set "c" "mod" 3,
        Op.load (DiskState.data (PickleData.odict [(("z", "mod"), 9), (("w", "mod"), 8)])),
        Op.save DiskState.absent SaveOutcome.ok, Op.clear] : List (Op Nat)).all
          (loadWithin 2) = true)
    ∧ (size (runOps (init 2 false DiskState.absent)
        ([Op.set "a" "mod" 1, Op.get "a" "mod", Op.set "b" "mod" 2,
          Op.set "c" "mod" 3,
          Op.load (DiskState.data (PickleData.odict [(("z", "mod"), 9), (("w", "mod"), 8)])),
          Op.save DiskState.absent SaveOutcome.ok, Op.clear] : List (Op Nat))) : Int) ≤ 2 :=
  ⟨by decide, by decide,
    claim_c1_capacity_invariant 2 false
      [Op.set "a" "mod" 1, Op.get "a" "mod", Op.set "b" "mod" 2,
        Op.set "c" "mod" 3,
        Op.load (DiskState.data (PickleData.odict [(("z", "mod"), 9), (("w", "mod"), 8)])),
        Op.save DiskState.absent SaveOutcome.ok, Op.clear]
      (by decide) (by decide)⟩

/-- Claim C10: construction does not validate the capacity. With a
non-positive max_size and no persisted content, every set on the (empty)
store first inserts the entry — the assignment makes it the only entry — and
the eviction step immediately pops it, so the mapping stays empty, size()
remains 0 after any sequence of sets and gets, and every get misses. -/
theorem claim_c10_nonpositive_capacity {V : Type} (maxSize : Int) (hmax : maxSize ≤ 0) :
    (∀ (c : PerSmilesPerModelLRUCache V) (s m : String) (v : V),
        c.max_size = maxSize → c.cache = [] →
          dictAssign (s, m) v c.cache = [((s, m), v)]
          ∧ (setImpl c s m v).cache = []
          ∧ ((setImpl c s m v).get s m).1 = none)
    ∧ (∀ ops : List (Op V), (∀ op ∈ ops, isSetOrGet op = true) →
        size (runOps (init maxSize false DiskState.absent) ops) = 0) := by
  constructor
  · intro c s m v hcm hc
    have h := @setImpl_nonpos_empty V c s m v (by rw [hcm]; exact hmax) hc
    refine ⟨h.1, h.2, ?_⟩
    rw [get_fst, h.2]
    rfl
  · intro ops hops
    have hinit : (init maxSize false (DiskState.absent : DiskState V))
        = ⟨[], maxSize, false, 0, 0⟩ := rfl
    have h := runOps_nonpos_empty ops (init maxSize false DiskState.absent)
      (by rw [hinit]; exact hmax) (by rw [hinit]) hops
    simp [size, h.2]

/-- Witness for claim C10: capacity 0, two sets and a get leave size 0. -/
theorem claim_c10_nonpositive_capacity_witness :
    ((0 : Int) ≤ 0)
    ∧ size (runOps (init 0 false DiskState.absent : PerSmilesPerModelLRUCache Nat)
        [Op.set "a" "mod" 1, Op.get "a" "mod", Op.set "a" "mod" 2]) = 0 :=
  ⟨by decide,
    (claim_c10_nonpositive_capacity (V := Nat) 0 (by decide)).2
      [Op.set "a" "mod" 1, Op.get "a" "mod", Op.set "a" "mod" 2] (by decide)⟩

/-- Claim C3: the batch wrapper returns one output per input subject in
input order — the cached value at each position that hit, and the computed
value for each occurrence that missed (the specified merge) — and the wrapped
function is invoked exactly once, with exactly the subjects that missed in
input order, and not at all when every subject was cached. -/
theorem claim_c3_batch_reconciliation {V : Type} (c : PerSmilesPerModelLRUCache V)
    (m : String) (f : List String → List (Option V)) (xs : List String) :
    (wrapperRun c m f xs).output.length = xs.length
    ∧ (wrapperRun c m f xs).output
        = mergeSpec (lookFun c m) xs (f (missSpec (lookFun c m) xs))
    ∧ (wrapperRun c m f xs).calls
        = (if missSpec (lookFun c m) xs = [] then []
           else [missSpec (lookFun c m) xs]) := by
  obtain ⟨h1, h2, h3⟩ := fetchPhase_spec m xs c 0
  have hmiss := fetch_missing m c xs
  by_cases hempty : missSpec (lookFun c m) xs = []
  · have hempty2 : ((fetchPhase m c xs 0).2.2.map Prod.fst).isEmpty = true := by
      rw [hmiss, hempty]
      rfl
    have hallhit : ∀ x ∈ xs, ((lookFun c m) x).isNone = false := by
      have hh := List.filter_eq_nil_iff.mp hempty
      intro x hx
      have h4 := hh x hx
      rw [Bool.not_eq_true] at h4
      exact h4
    have hrun : wrapperRun c m f xs
        = ⟨(fetchPhase m c xs 0).1, (fetchPhase m c xs 0).2.1, [], []⟩ := by
      unfold wrapperRun
      simp [hempty2]
    rw [hrun]
    refine ⟨?_, ?_, ?_⟩
    · simp [h1]
    · simp only [h1]
      rw [mergeSpec_all_hit hallhit]
    · simp [hempty]
  · have hempty2 : ((fetchPhase m c xs 0).2.2.map Prod.fst).isEmpty = false := by
      rw [hmiss]
      cases hc2 : missSpec (lookFun c m) xs with
      | nil => exact absurd hc2 hempty
      | cons a l => rfl
    have hrun : wrapperRun c m f xs
        = ⟨(writePhase m (fetchPhase m c xs 0).1 (fetchPhase m c xs 0).2.2
              (f (missSpec (lookFun c m) xs)) (fetchPhase m c xs 0).2.1).1,
           (writePhase m (fetchPhase m c xs 0).1 (fetchPhase m c xs 0).2.2
              (f (missSpec (lookFun c m) xs)) (fetchPhase m c xs 0).2.1).2.1,
           [missSpec (lookFun c m) xs],
           (writePhase m (fetchPhase m c xs 0).1 (fetchPhase m c xs 0).2.2
              (f (missSpec (lookFun c m) xs)) (fetchPhase m c xs 0).2.1).2.2⟩ := by
      unfold wrapperRun
      simp [hmiss, hempty2, hempty]
    rw [hrun]
    have hout : (writePhase m (fetchPhase m c xs 0).1 (fetchPhase m c xs 0).2.2
        (f (missSpec (lookFun c m) xs)) (fetchPhase m c xs 0).2.1).2.1
        = mergeSpec (lookFun c m) xs (f (missSpec (lookFun c m) xs)) := by
      rw [h1, h2]
      exact writePhase_mergeSpec m xs (lookFun c m) (f (missSpec (lookFun c m) xs))
        (fetchPhase m c xs 0).1
    refine ⟨?_, hout, ?_⟩
    · rw [hout, mergeSpec_length]
    · simp [hempty]

/-- Claim C5: duplicate subjects are not deduplicated. With a subject x not
in the store, wrapping the batch consisting of x twice invokes the wrapped
function once with the two-element list of both occurrences, writes each
occurrence's result into the store independently (two writes, in order), and
outputs both results positionally. -/
theorem claim_c5_duplicates_not_deduplicated {V : Type}
    (c : PerSmilesPerModelLRUCache V) (m x : String)
    (f : List String → List (Option V)) (v1 v2 : V)
    (hx : lookupKey (x, m) c.cache = none)
    (hf : f [x, x] = [some v1, some v2]) :
    (wrapperRun c m f [x, x]).calls = [[x, x]]
    ∧ (wrapperRun c m f [x, x]).writes = [((x, m), v1), ((x, m), v2)]
    ∧ (wrapperRun c m f [x, x]).output = [some v1, some v2] := by
  have hget : (c.get x m).1 = none := by rw [get_fst, hx]
  have hget2 : ((c.get x m).2.get x m).1 = none := by
    rw [get_fst, lookupKey_get_snd, hx]
  refine ⟨?_, ?_, ?_⟩ <;>
    simp [wrapperRun, fetchPhase, hget, hget2, hf, writePhase]

/-- Claim C6: a computed result that is the absent marker is placed into the
output at its original index but never written into the store, so a
subsequent batch call with the same subject invokes the wrapped function
again for it. -/
theorem claim_c6_absent_result_never_cached {V : Type}
    (c : PerSmilesPerModelLRUCache V) (m x : String)
    (f : List String → List (Option V))
    (hx : lookupKey (x, m) c.cache = none)
    (hf : f [x] = [none]) :
    (wrapperRun c m f [x]).output = [none]
    ∧ (wrapperRun c m f [x]).writes = []
    ∧ (wrapperRun (wrapperRun c m f [x]).cache m f [x]).calls = [[x]] := by
  have hget : (c.get x m).1 = none := by rw [get_fst, hx]
  have hrun : wrapperRun c m f [x]
      = ⟨(c.get x m).2, [none], [[x]], []⟩ := by
    simp [wrapperRun, fetchPhase, hget, hf, writePhase]
  refine ⟨by rw [hrun], by rw [hrun], ?_⟩
  have hget3 : ((c.get x m).2.get x m).1 = none := by
    rw [get_fst, lookupKey_get_snd, hx]
  rw [hrun]
  simp [wrapperRun, fetchPhase, hget3, hf, writePhase]

/-- Witness for claim C5: an empty store, subject a missing, wrapped function
returning two distinct results for the two occurrences. -/
theorem claim_c5_duplicates_not_deduplicated_witness :
    lookupKey ("a", "mod")
        (init 100 false DiskState.absent : PerSmilesPerModelLRUCache Nat).cache = none
    ∧ (fun _ : List String => [some 1, some 2]) ["a", "a"] = [some 1, some 2]
    ∧ (wrapperRun (init 100 false DiskState.absent : PerSmilesPerModelLRUCache Nat)
        "mod" (fun _ => [some 1, some 2]) ["a", "a"]).calls = [["a", "a"]]
    ∧ (wrapperRun (init 100 false DiskState.absent : PerSmilesPerModelLRUCache Nat)
        "mod" (fun _ => [some 1, some 2]) ["a", "a"]).writes
          = [(("a", "mod"), 1), (("a", "mod"), 2)] :=
  ⟨rfl, rfl,
    (claim_c5_duplicates_not_deduplicated
      (init 100 false DiskState.absent) "mod" "a" (fun _ => [some 1, some 2]) 1 2
      rfl rfl).1,
    (claim_c5_duplicates_not_deduplicated
      (init 100 false DiskState.absent) "mod" "a" (fun _ => [some 1, some 2]) 1 2
      rfl rfl).2.1⟩

/-- Witness for claim C6: an empty store and a wrapped function answering the
absent marker; the second call still invokes it. -/
theorem claim_c6_absent_result_never_cached_witness :
    lookupKey ("a", "mod")
        (init 100 false DiskState.absent : PerSmilesPerModelLRUCache Nat).cache = none
    ∧ (fun _ : List String => ([none] : List (Option Nat))) ["a"] = [none]
    ∧ (wrapperRun
        (wrapperRun (init 100 false DiskState.absent : PerSmilesPerModelLRUCache Nat)
          "mod" (fun _ => [none]) ["a"]).cache
        "mod" (fun _ => [none]) ["a"]).calls = [["a"]] :=
  ⟨rfl, rfl,
    (claim_c6_absent_result_never_cached
      (init 100 false DiskState.absent) "mod" "a" (fun _ => [none]) rfl rfl).2.2⟩

/-- Claim C4 (amended): the wrapper fails exactly when the input is not a
list, or the model_name attribute is absent, or some subjects missed and the
wrapped function's return value is not an Iterable. The code never checks the
length of the return value: a return of a different length than the
to-compute list is accepted (see the counterexample). -/
theorem claim_c4_assertion_failures {V : Type} (c : PerSmilesPerModelLRUCache V)
    (is_list : Bool) (model_attr : Option String)
    (func : List String → Option (List (Option V))) (xs : List String) :
    batch_decorator c is_list model_attr func xs = none
      ↔ (is_list = false ∨ model_attr = none
          ∨ ∃ m2, model_attr = some m2
              ∧ missSpec (lookFun c m2) xs ≠ []
              ∧ func (missSpec (lookFun c m2) xs) = none) := by
  cases is_list with
  | false => simp [batch_decorator]
  | true =>
    cases model_attr with
    | none => simp [batch_decorator]
    | some m2 =>
      have hmiss := fetch_missing m2 c xs
      by_cases hempty : missSpec (lookFun c m2) xs = []
      · have hempty2 : ((fetchPhase m2 c xs 0).2.2.map Prod.fst).isEmpty = true := by
          rw [hmiss, hempty]
          rfl
        simp [batch_decorator, hempty2, hempty]
      · have hempty2 : ((fetchPhase m2 c xs 0).2.2.map Prod.fst).isEmpty = false := by
          rw [hmiss]
          cases hc2 : missSpec (lookFun c m2) xs with
          | nil => exact absurd hc2 hempty
          | cons a l => rfl
        cases hfunc : func (missSpec (lookFun c m2) xs) with
        | none => simp [batch_decorator, hmiss, hempty2, hempty, hfunc]
        | some rs => simp [batch_decorator, hmiss, hempty2, hempty, hfunc]

/-- Claim C4 counterexample: both subjects miss on an empty store, the
wrapped function returns a single-element list (length 1 ≠ 2), and the
wrapper nevertheless succeeds — the equal-length condition claimed by the
spec is not enforced. -/
theorem claim_c4_counterexample :
    missSpec (lookFun (init 100 false DiskState.absent : PerSmilesPerModelLRUCache Nat)
        "mod") ["a", "b"] = ["a", "b"]
    ∧ (batch_decorator (init 100 false DiskState.absent : PerSmilesPerModelLRUCache Nat)
        true (some "mod") (fun _ => some [some 1]) ["a", "b"]).isSome = true := by
  decide

/-- Claim C7: set rejects the absent marker (assertion failure) and succeeds
on any non-absent value, so an absent value is never stored; and get returns
absent exactly when the key is not present in the mapping (every stored value
is of the non-absent value type). -/
theorem claim_c7_absent_never_stored {V : Type} (c : PerSmilesPerModelLRUCache V)
    (s m : String) :
    set c s m none = none
    ∧ (∀ v : V, set c s m (some v) = some (setImpl c s m v))
    ∧ ((c.get s m).1 = none ↔ lookupKey (s, m) c.cache = none) := by
  refine ⟨rfl, fun v => rfl, ?_⟩
  rw [get_fst]

/-- Claim C8: save and load are total functions of the state (no exception
reaches the caller): a save leaves the in-memory mapping and counters
unaffected whatever the I/O outcome, and a load of malformed content, of
content of the wrong shape, of a missing file or of an empty file leaves the
in-memory state unchanged. -/
theorem claim_c8_save_load_never_raise {V : Type} (c : PerSmilesPerModelLRUCache V)
    (d : DiskState V) (o : SaveOutcome V) :
    (c.save d o).1 = c
    ∧ c.load (DiskState.data PickleData.corrupt) = c
    ∧ c.load (DiskState.data PickleData.nonOdict) = c
    ∧ c.load DiskState.absent = c
    ∧ c.load DiskState.emptyFile = c := by
  refine ⟨save_cache_fst c d o, ?_, ?_, ?_, ?_⟩ <;>
    · by_cases hp : c.persist <;> simp [load, load_cache, hp]

/-- Claim C9: persistence round-trips the mapping. After two sets of distinct
keys on a store of capacity at least 2 with a durable location, and a
successful save, a fresh store constructed on that location followed by a
load serves both keys with their values. -/
theorem claim_c9_persistence_round_trip {V : Type} (s1 m1 s2 m2 : String) (v1 v2 : V)
    (maxA maxB : Int) (hk : (s1, m1) ≠ (s2, m2)) (hmax : 2 ≤ maxA) :
    let cA : PerSmilesPerModelLRUCache V :=
      setImpl (setImpl (init maxA true DiskState.absent) s1 m1 v1) s2 m2 v2
    let d1 := (cA.save DiskState.absent SaveOutcome.ok).2
    let cB := (init maxB true d1 : PerSmilesPerModelLRUCache V).load d1
    (cB.get s1 m1).1 = some v1 ∧ (cB.get s2 m2).1 = some v2 := by
  intro cA d1 cB
  have hno1 : ¬ ((((([] : List ((String × String) × V))
      ++ [((s1, m1), v1)]).length : Int)) > maxA) := by
    simp
    omega
  have hA1 : setImpl (init maxA true DiskState.absent : PerSmilesPerModelLRUCache V)
      s1 m1 v1 = ⟨[((s1, m1), v1)], maxA, true, 0, 0⟩ := by
    have e1 : (init maxA true (DiskState.absent : DiskState V))
        = ⟨[], maxA, true, 0, 0⟩ := rfl
    rw [e1]
    simp only [setImpl, containsKey, lookupKey, Option.isSome_none, Bool.false_eq_true,
      if_false, dictAssign, popFrontIfOver]
    rw [if_neg (by simpa using hno1)]
  have hlk : lookupKey (s2, m2) [((s1, m1), v1)] = none := by
    have : ¬ ((s1, m1) = (s2, m2)) := hk
    simp [lookupKey, this]
  have hA2 : setImpl (⟨[((s1, m1), v1)], maxA, true, 0, 0⟩ : PerSmilesPerModelLRUCache V)
      s2 m2 v2 = ⟨[((s1, m1), v1), ((s2, m2), v2)], maxA, true, 0, 0⟩ := by
    simp only [setImpl, containsKey, hlk, Option.isSome_none, Bool.false_eq_true,
      if_false, dictAssign, hk, popFrontIfOver]
    rw [if_neg (by simp; omega)]
  have hcA : cA = ⟨[((s1, m1), v1), ((s2, m2), v2)], maxA, true, 0, 0⟩ := by
    show setImpl (setImpl (init maxA true DiskState.absent) s1 m1 v1) s2 m2 v2 = _
    rw [hA1, hA2]
  have hd1 : d1 = DiskState.data (PickleData.odict [((s1, m1), v1), ((s2, m2), v2)]) := by
    show (cA.save DiskState.absent SaveOutcome.ok).2 = _
    rw [hcA]
    rfl
  have hcB : cB.cache = [((s1, m1), v1), ((s2, m2), v2)] := by
    show ((init maxB true d1 : PerSmilesPerModelLRUCache V).load d1).cache = _
    rw [hd1]
    rfl
  constructor
  · rw [get_fst, hcB]
    simp [lookupKey]
  · rw [get_fst, hcB]
    have h1 : ¬ ((s1, m1) = (s2, m2)) := hk
    simp [lookupKey, h1]

/-- Witness for claim C9 at concrete keys, values and capacities. -/
theorem claim_c9_persistence_round_trip_witness :
    ((("a", "mod") : String × String) ≠ ("b", "mod"))
    ∧ ((2 : Int) ≤ 3)
    ∧ (let cA := setImpl (setImpl
        (init 3 true DiskState.absent : PerSmilesPerModelLRUCache Nat) "a" "mod" 1)
        "b" "mod" 2
       let d1 := (cA.save DiskState.absent SaveOutcome.ok).2
       let cB := (init 3 true d1 : PerSmilesPerModelLRUCache Nat).load d1
       (cB.get "a" "mod").1 = some 1 ∧ (cB.get "b" "mod").1 = some 2) :=
  ⟨by decide, by decide,
    claim_c9_persistence_round_trip "a" "mod" "b" "mod" 1 2 3 3 (by decide) (by decide)⟩

end PerSmilesPerModelLRUCache
